import Mathlib

/-!
Shallow embedding of the comic-generation pipeline of this repository
(src/services/geminiService.ts, final revision, and src/App.tsx).
JavaScript strings are modelled as `List Char`; JavaScript values crossing
the provider trust boundary are modelled by the `JVal` type; network calls
are cut at the fetch boundary and supplied as oracles.
-/

namespace Comics

/-- The backquote character, used by the markdown fence patterns. -/
def bq : Char := Char.ofNat 96

/-- JS whitespace class membership for the characters relevant here. -/
def isWsChar (c : Char) : Bool :=
  c = ' ' || c = '\t' || c = '\n' || c = '\r' || c = Char.ofNat 11 || c = Char.ofNat 12

/-- JS `String.prototype.trim`. -/
def trimList (l : List Char) : List Char :=
  ((l.dropWhile isWsChar).reverse.dropWhile isWsChar).reverse

/-- JS `String.prototype.indexOf` for a single character (None for -1). -/
def firstIdx? (c : Char) : List Char → Option Nat
  | [] => none
  | a :: t => if a = c then some 0 else (firstIdx? c t).map (· + 1)

/-- JS `String.prototype.lastIndexOf` for a single character (None for -1). -/
def lastIdx? (c : Char) : List Char → Option Nat
  | [] => none
  | a :: t =>
    match lastIdx? c t with
    | some j => some (j + 1)
    | none => if a = c then some 0 else none

/-- Index of the first occurrence of the pattern `pat` as a contiguous
substring (None when there is none). -/
def findSub? (pat : List Char) : List Char → Option Nat
  | [] => if pat = [] then some 0 else none
  | l@(_ :: t) =>
    if List.isPrefixOf pat l then some 0 else (findSub? pat t).map (· + 1)

/-- The opening fence pattern of the regex in `extractJson`. -/
def fenceOpenPat : List Char := bq :: bq :: bq :: 'j' :: 's' :: 'o' :: 'n' :: []

/-- The closing fence pattern of the regex in `extractJson`. -/
def fenceClosePat : List Char := [bq, bq, bq]

/-- The (already trimmed) capture group of the leftmost match of the fence
regex of `extractJson` in the text, if the regex matches. -/
def fenceCapture? : List Char → Option (List Char)
  | [] => none
  | l@(_ :: t) =>
    if List.isPrefixOf fenceOpenPat l then
      match findSub? fenceClosePat (l.drop 7) with
      | some k => some (trimList ((l.drop 7).take k))
      | none => fenceCapture? t
    else fenceCapture? t

/-- `extractJson` (src/services/geminiService.ts, final revision, lines
917-942): fenced-json capture when present and non-empty, otherwise the
substring from the earliest opener to the latest closer. -/
def extractJson (text : List Char) : Option (List Char) :=
  if text = [] then none
  else
    match (match fenceCapture? text with
           | some cap => if cap = [] then none else some cap
           | none => none) with
    | some cap => some cap
    | none =>
      let start? : Option Nat :=
        match firstIdx? '{' text, firstIdx? '[' text with
        | none, none => none
        | none, some j => some j
        | some i, none => some i
        | some i, some j => some (min i j)
      match start? with
      | none => none
      | some s =>
        let stop? : Option Nat :=
          match lastIdx? '}' text, lastIdx? ']' text with
          | none, none => none
          | some i, none => some i
          | none, some j => some j
          | some i, some j => some (max i j)
        match stop? with
        | none => none
        | some e => if e < s then none else some ((text.drop s).take (e + 1 - s))

/-! JavaScript values at the provider trust boundary. -/

/-- A JavaScript value as it may appear in a provider reply or in a raw
scene record: undefined, null, boolean, (integer) number, string, array
or plain object. -/
inductive JVal where
  | jundef : JVal
  | jnull : JVal
  | jbool (b : Bool) : JVal
  | jnum (n : Int) : JVal
  | jstr (s : List Char) : JVal
  | jarr (xs : List JVal) : JVal
  | jobj (kvs : List (List Char × JVal)) : JVal

/-- JS truthiness of a `JVal` (`NaN` is outside the integer model). -/
def truthy : JVal → Bool
  | .jundef => false
  | .jnull => false
  | .jbool b => b
  | .jnum n => n != 0
  | .jstr s => s != []
  | .jarr _ => true
  | .jobj _ => true

/-- JS `||`: the left operand when truthy, otherwise the right one. -/
def jsOr (a b : JVal) : JVal := if truthy a then a else b

/-- JS strict equality `===` restricted to primitive values; distinct
array/object values compare unequal (reference identity of aliased
objects is outside the embedding and unused by the code under study). -/
def jsStrictEq : JVal → JVal → Bool
  | .jundef, .jundef => true
  | .jnull, .jnull => true
  | .jbool a, .jbool b => a = b
  | .jnum a, .jnum b => a = b
  | .jstr a, .jstr b => a = b
  | _, _ => false

/-- JS property access `v[k]`: throws (`.error`) on null/undefined,
yields the member on objects, undefined on other primitives. -/
def jget : JVal → List Char → Except Unit JVal
  | .jundef, _ => .error ()
  | .jnull, _ => .error ()
  | .jobj kvs, k =>
      .ok (((kvs.find? (fun kv => kv.1 = k)).map Prod.snd).getD .jundef)
  | _, _ => .ok .jundef

mutual

/-- JS string coercion as used by template literals. -/
def jsToString : JVal → List Char
  | .jundef => 'u' :: 'n' :: 'd' :: 'e' :: 'f' :: 'i' :: 'n' :: 'e' :: 'd' :: []
  | .jnull => 'n' :: 'u' :: 'l' :: 'l' :: []
  | .jbool true => 't' :: 'r' :: 'u' :: 'e' :: []
  | .jbool false => 'f' :: 'a' :: 'l' :: 's' :: 'e' :: []
  | .jnum n => (toString n).toList
  | .jstr s => s
  | .jarr xs => List.intercalate [','] (jsToStringList xs)
  | .jobj _ => ('[' :: "object Object".toList) ++ [']']

/-- JS Array.prototype.join element coercion: null and undefined render
as the empty string inside an array. -/
def jsToStringList : List JVal → List (List Char)
  | [] => []
  | .jnull :: vs => [] :: jsToStringList vs
  | .jundef :: vs => [] :: jsToStringList vs
  | v :: vs => jsToString v :: jsToStringList vs

end

/-! A model of `JSON.parse` (strict JSON): recursive descent over the
character list.  Numbers are restricted to integer literals; JSON
fraction/exponent forms denote IEEE doubles and stay outside this
embedding (no claim depends on them). -/

/-- Hexadecimal digit value. -/
def hexVal? (c : Char) : Option Nat :=
  if '0' ≤ c ∧ c ≤ '9' then some (c.toNat - 48)
  else if 'a' ≤ c ∧ c ≤ 'f' then some (c.toNat - 87)
  else if 'A' ≤ c ∧ c ≤ 'F' then some (c.toNat - 55)
  else none

/-- JSON single-character escapes. -/
def escChar? (c : Char) : Option Char :=
  if c = '"' then some '"'
  else if c = '\\' then some '\\'
  else if c = '/' then some '/'
  else if c = 'b' then some (Char.ofNat 8)
  else if c = 'f' then some (Char.ofNat 12)
  else if c = 'n' then some '\n'
  else if c = 'r' then some '\r'
  else if c = 't' then some '\t'
  else none

/-- Drop leading JSON whitespace. -/
def skipWs (l : List Char) : List Char := l.dropWhile isWsChar

/-- Parse the body of a JSON string (after the opening quote), returning
the decoded characters and the remaining input. -/
def parseStringBody (l : List Char) : Option (List Char × List Char) :=
  match l with
  | [] => none
  | c :: r =>
    if c = '"' then some ([], r)
    else if c = '\\' then
      match r with
      | [] => none
      | e :: r2 =>
        if e = 'u' then
          match r2 with
          | h1 :: h2 :: h3 :: h4 :: r3 => do
            let a ← hexVal? h1
            let b ← hexVal? h2
            let c2 ← hexVal? h3
            let d ← hexVal? h4
            let (s, rest) ← parseStringBody r3
            pure (Char.ofNat (((a * 16 + b) * 16 + c2) * 16 + d) :: s, rest)
          | _ => none
        else do
          let ec ← escChar? e
          let (s, rest) ← parseStringBody r2
          pure (ec :: s, rest)
    else if c.toNat < 32 then none
    else do
      let (s, rest) ← parseStringBody r
      pure (c :: s, rest)
termination_by l.length
decreasing_by all_goals (simp_all <;> omega)

/-- ASCII decimal digit test. -/
def isDigitCh (c : Char) : Bool := '0' ≤ c ∧ c ≤ '9'

/-- Numeric value of a list of decimal digits. -/
def natFromDigits (ds : List Char) : Nat :=
  ds.foldl (fun a c => a * 10 + (c.toNat - 48)) 0

/-- Parse a JSON integer literal (fractions/exponents are rejected, see
above). -/
def parseNumber (l : List Char) : Option (JVal × List Char) :=
  let (neg, l1) :=
    match l with
    | '-' :: r => (true, r)
    | _ => (false, l)
  let ds := l1.takeWhile isDigitCh
  let rest := l1.dropWhile isDigitCh
  if ds = [] then none
  else if 1 < ds.length ∧ ds.head? = some '0' then none
  else
    match rest with
    | c :: _ =>
      if c = '.' ∨ c = 'e' ∨ c = 'E' then none
      else some (.jnum (if neg then -(natFromDigits ds : Int) else (natFromDigits ds : Int)), rest)
    | [] => some (.jnum (if neg then -(natFromDigits ds : Int) else (natFromDigits ds : Int)), rest)

/-- Prepend an object member to the already-collapsed later members, as
`JSON.parse` does: a repeated key keeps its first position but takes the
value of its last occurrence. -/
def consKV (k : List Char) (v : JVal) (kvs : List (List Char × JVal)) :
    List (List Char × JVal) :=
  match kvs.find? (fun kv => kv.1 = k) with
  | some kv2 => (k, kv2.2) :: kvs.filter (fun kv => ¬ (kv.1 = k))
  | none => (k, v) :: kvs

mutual

/-- Parse one JSON value (fuelled). -/
def parseVal : Nat → List Char → Option (JVal × List Char)
  | 0, _ => none
  | fuel + 1, l =>
    match skipWs l with
    | [] => none
    | c :: r =>
      if c = '{' then
        match skipWs r with
        | '}' :: r2 => some (.jobj [], r2)
        | _ => (parseMembers fuel r).map (fun p => (.jobj p.1, p.2))
      else if c = '[' then
        match skipWs r with
        | ']' :: r2 => some (.jarr [], r2)
        | _ => (parseElems fuel r).map (fun p => (.jarr p.1, p.2))
      else if c = '"' then
        (parseStringBody r).map (fun p => (.jstr p.1, p.2))
      else if c = 't' then
        match r with
        | 'r' :: 'u' :: 'e' :: r2 => some (.jbool true, r2)
        | _ => none
      else if c = 'f' then
        match r with
        | 'a' :: 'l' :: 's' :: 'e' :: r2 => some (.jbool false, r2)
        | _ => none
      else if c = 'n' then
        match r with
        | 'u' :: 'l' :: 'l' :: r2 => some (.jnull, r2)
        | _ => none
      else if c = '-' ∨ isDigitCh c then parseNumber (c :: r)
      else none

/-- Parse a non-empty comma-separated list of array elements followed by
the closing bracket. -/
def parseElems : Nat → List Char → Option (List JVal × List Char)
  | 0, _ => none
  | fuel + 1, l => do
    let (v, rest) ← parseVal fuel l
    match skipWs rest with
    | ',' :: r2 => (parseElems fuel r2).map (fun p => (v :: p.1, p.2))
    | ']' :: r2 => some ([v], r2)
    | _ => none

/-- Parse a non-empty comma-separated list of object members followed by
the closing brace. -/
def parseMembers : Nat → List Char → Option (List (List Char × JVal) × List Char)
  | 0, _ => none
  | fuel + 1, l =>
    match skipWs l with
    | '"' :: r => do
      let (k, rest) ← parseStringBody r
      match skipWs rest with
      | ':' :: r2 => do
        let (v, rest2) ← parseVal fuel r2
        match skipWs rest2 with
        | ',' :: r3 => (parseMembers fuel r3).map (fun p => (consKV k v p.1, p.2))
        | '}' :: r3 => some ([(k, v)], r3)
        | _ => none
      | _ => none
    | _ => none

end

/-- Model of `JSON.parse`: the whole input must be one JSON value
surrounded only by whitespace. -/
def jsonParse (l : List Char) : Option JVal :=
  match parseVal (2 * l.length + 2) l with
  | some (v, rest) => if skipWs rest = [] then some v else none
  | none => none

/-! Data model (src/types.ts) and constants (src/constants.ts). -/

/-- `FIXED_IMAGE_SEED` from src/constants.ts. -/
def FIXED_IMAGE_SEED : Int := 42

/-- `AspectRatio` from src/types.ts. -/
inductive AspectRatio where
  | square : AspectRatio
  | portrait : AspectRatio
  | landscape : AspectRatio
deriving DecidableEq

/-- `CharacterReference` from src/types.ts. -/
structure CharacterReference where
  id : List Char
  name : List Char
  image : List Char

/-- `ComicPanelData` from src/types.ts, with loosely-typed fields kept as
`JVal` as the untyped provider data flows through them at runtime. -/
structure ComicPanelData where
  scene_number : JVal
  image_prompt : JVal
  caption : JVal
  dialogues : List JVal
  imageUrl : Option (List Char) := none

/-- The style/era suffix appended to prompts by the Pollinations scene
normalization and by the App fallback panel. -/
def styleEraSuffix (style era : List Char) : List Char :=
  ", in the style of ".toList ++ style ++ ", ".toList ++ era

/-! Scene normalization (src/services/geminiService.ts, final revision:
the `.map` callbacks at lines 1072-1077 and 1181-1186). -/

/-- One raw scene record normalized by the Pollinations variant (member
access throws on a null/undefined record, which the surrounding try
catches). -/
def normalizeScenePoll (ic : Bool) (style era : List Char) (i : Nat)
    (panel : JVal) : Except Unit ComicPanelData := do
  let sn ← jget panel ("scene_number".toList)
  let ip ← jget panel ("image_prompt".toList)
  let cap ← jget panel ("caption".toList)
  let dl ← jget panel ("dialogues".toList)
  pure
    { scene_number := jsOr sn (.jnum (i + 1 : Nat))
      image_prompt := .jstr (jsToString ip ++ styleEraSuffix style era)
      caption := if ic then cap else .jnull
      dialogues := if ic then (match dl with | .jarr xs => xs | _ => []) else []
      imageUrl := none }

/-- The indexed `.map` over the parsed scene array, Pollinations variant. -/
def normalizeScenesPollGo (ic : Bool) (style era : List Char) :
    Nat → List JVal → Except Unit (List ComicPanelData)
  | _, [] => .ok []
  | i, p :: ps => do
    let x ← normalizeScenePoll ic style era i p
    let rest ← normalizeScenesPollGo ic style era (i + 1) ps
    pure (x :: rest)

/-- Normalization of a parsed scene array, Pollinations variant. -/
def normalizeScenesPoll (ic : Bool) (style era : List Char)
    (scenes : List JVal) : Except Unit (List ComicPanelData) :=
  normalizeScenesPollGo ic style era 0 scenes

/-- One raw scene record normalized by the Gemini variant (identical
except that `image_prompt` is passed through verbatim). -/
def normalizeSceneGemini (ic : Bool) (i : Nat) (panel : JVal) :
    Except Unit ComicPanelData := do
  let sn ← jget panel ("scene_number".toList)
  let ip ← jget panel ("image_prompt".toList)
  let cap ← jget panel ("caption".toList)
  let dl ← jget panel ("dialogues".toList)
  pure
    { scene_number := jsOr sn (.jnum (i + 1 : Nat))
      image_prompt := ip
      caption := if ic then cap else .jnull
      dialogues := if ic then (match dl with | .jarr xs => xs | _ => []) else []
      imageUrl := none }

/-- The indexed `.map` over the parsed scene array, Gemini variant. -/
def normalizeScenesGeminiGo (ic : Bool) :
    Nat → List JVal → Except Unit (List ComicPanelData)
  | _, [] => .ok []
  | i, p :: ps => do
    let x ← normalizeSceneGemini ic i p
    let rest ← normalizeScenesGeminiGo ic (i + 1) ps
    pure (x :: rest)

/-- Normalization of a parsed scene array, Gemini variant. -/
def normalizeScenesGemini (ic : Bool) (scenes : List JVal) :
    Except Unit (List ComicPanelData) :=
  normalizeScenesGeminiGo ic 0 scenes

/-! Scene acquisition, free-text (Pollinations) variant
(src/services/geminiService.ts, final revision, lines 1042-1085). -/

/-- An observable event of a service run: a real-time sleep of the given
number of milliseconds, or the start of the numbered attempt. -/
inductive RunEvent where
  | delayed (ms : Nat) : RunEvent
  | attempted (i : Nat) : RunEvent
deriving DecidableEq

/-- The body of one Pollinations text attempt: the fetch outcome is an
oracle input (`none` models a network throw or a non-ok HTTP status);
then extraction, strict `JSON.parse`, the array/non-empty check, and
normalization.  Any throw is caught by the loop and reported as
`.error`. -/
def pollAttemptBody (ic : Bool) (style era : List Char)
    (resp : Option (List Char)) : Except Unit (List ComicPanelData) :=
  match resp with
  | none => .error ()
  | some text =>
    match extractJson text with
    | none => .error ()
    | some jsonString =>
      if jsonString = [] then .error ()
      else
        match jsonParse jsonString with
        | none => .error ()
        | some v =>
          match v with
          | .jarr scenes =>
            if scenes.isEmpty then .error ()
            else normalizeScenesPoll ic style era scenes
          | _ => .error ()

/-- The retry loop of `generateScenePromptsWithPollinations`: before every
retry (attempt > 0) a fixed 2000 ms delay; a successful body returns its
panels; when the iteration budget is exhausted the function returns `[]`
normally. -/
def pollLoop (ic : Bool) (style era : List Char)
    (oracle : Nat → Option (List Char)) :
    Nat → Nat → List RunEvent × Except Unit (List ComicPanelData)
  | _, 0 => ([], .ok [])
  | attempt, rem + 1 =>
    let pre : List RunEvent := if 0 < attempt then [.delayed 2000] else []
    match pollAttemptBody ic style era (oracle attempt) with
    | .ok panels => (pre ++ [.attempted attempt], .ok panels)
    | .error _ =>
      let r := pollLoop ic style era oracle (attempt + 1) rem
      (pre ++ [.attempted attempt] ++ r.1, r.2)

/-- `generateScenePromptsWithPollinations` (final revision): maxRetries =
2, so three iterations starting at attempt 0. -/
def generateScenePromptsWithPollinations (ic : Bool) (style era : List Char)
    (oracle : Nat → Option (List Char)) :
    List RunEvent × Except Unit (List ComicPanelData) :=
  pollLoop ic style era oracle 0 3

/-! Image generation requests. -/

/-- The query parameters built by `generateImageForPromptWithPollinations`
(final revision, lines 995-1040): model, seed, then width/height from the
aspect ratio. -/
structure PollinationsImageRequest where
  prompt : List Char
  model : List Char
  seed : Int
  width : Nat
  height : Nat

/-- `generateImageForPromptWithPollinations`, cut at the fetch boundary:
the request it issues. -/
def generateImageForPromptWithPollinations (prompt model : List Char)
    (ar : AspectRatio) : PollinationsImageRequest :=
  { prompt := prompt
    model := model
    seed := FIXED_IMAGE_SEED
    width := match ar with
             | .portrait => 1024
             | .landscape => 1792
             | .square => 1024
    height := match ar with
              | .portrait => 1792
              | .landscape => 1024
              | .square => 1024 }

/-- The aspect-ratio encoding of the Gemini image call. -/
def aspectToApi : AspectRatio → List Char
  | .square => "1:1".toList
  | .portrait => "9:16".toList
  | .landscape => "16:9".toList

/-- The request record of one `ai.images.generate` call in
`generateImageForPrompt` (final revision, lines 1218-1246). -/
structure GeminiImageRequest where
  model : List Char
  prompt : List Char
  number : Nat
  aspectRatio : List Char
  seed : Int

/-- The request built by `generateImageForPrompt` (final revision): the
augmented prompt, one image, the encoded aspect ratio and the fixed
seed. -/
def buildGeminiImageRequest (initialImagePrompt : List Char)
    (inputAspectRatio : AspectRatio) (imageModelName style era : List Char) :
    GeminiImageRequest :=
  { model := imageModelName
    prompt := initialImagePrompt ++ ", cinematic still, in the distinct visual style of ".toList
        ++ style ++ ", inspired by the ".toList ++ era ++ " era.".toList
    number := 1
    aspectRatio := aspectToApi inputAspectRatio
    seed := FIXED_IMAGE_SEED }

/-- Failure classes of a Gemini image attempt, as the spec's taxonomy
names them; the final-revision code does not inspect the class. -/
inductive GemErrorClass where
  | rateLimit : GemErrorClass
  | serverError : GemErrorClass
  | safetyBlock : GemErrorClass
  | authError : GemErrorClass
  | otherError : GemErrorClass
deriving DecidableEq

/-- Outcome of `generateImageForPrompt`: a data URL, or the final throw
after the loop (carrying the class of the last attempt's error). -/
inductive GemImageResult where
  | success (url : List Char) : GemImageResult
  | exhausted (last : Option GemErrorClass) : GemImageResult
deriving DecidableEq

/-- The retry loop of `generateImageForPrompt` (final revision):
`for (attempt = 0; attempt < 2; attempt++)`, catching every error alike
and sleeping `2000 * (attempt + 1)` ms when `attempt < maxRetries - 1`. -/
def geminiImageLoop (oracle : Nat → Except GemErrorClass (List Char)) :
    Nat → Nat → Option GemErrorClass → List RunEvent × GemImageResult
  | _, 0, last => ([], .exhausted last)
  | attempt, rem + 1, _ =>
    match oracle attempt with
    | .ok url => ([.attempted attempt], .success url)
    | .error c =>
      let ds : List RunEvent :=
        if attempt < 2 - 1 then [.delayed (2000 * (attempt + 1))] else []
      let r := geminiImageLoop oracle (attempt + 1) rem (some c)
      (.attempted attempt :: ds ++ r.1, r.2)

/-- `generateImageForPrompt` cut at the SDK boundary: the per-attempt
outcome is an oracle input; maxRetries = 2 bounds the loop to two
iterations. -/
def generateImageForPrompt (oracle : Nat → Except GemErrorClass (List Char)) :
    List RunEvent × GemImageResult :=
  geminiImageLoop oracle 0 2 none

/-! The generation run controller `handleComicGeneration`
(src/App.tsx, lines 24-116). -/

/-- The literal error sentinel assigned to a failing panel's imageUrl. -/
def errSentinel : List Char := "error".toList

/-- The non-fatal warning surfaced when scene acquisition yields no
scenes (src/App.tsx line 48). -/
def fallbackWarning : List Char :=
  ("Warning: The AI could not break the story into scenes. " ++
   "Generating a single image from the full story text instead.").toList

/-- The single fallback panel synthesized by `handleComicGeneration`
(src/App.tsx lines 50-55). -/
def fallbackPanel (story style era : List Char) : ComicPanelData :=
  { scene_number := .jnum 1
    image_prompt := .jstr (story ++ styleEraSuffix style era)
    caption := .jstr ("Fallback: Full Story".toList)
    dialogues := [.jstr ("Scene generation failed.".toList)]
    imageUrl := none }

/-- Observable event of the controller's image phase. -/
inductive AppEvent where
  | calledImage (sn : JVal) : AppEvent
  | loggedError (msg : List Char) : AppEvent

/-- `setComicPanels(prev => prev.map(p => p.scene_number ===
panel.scene_number ? Object.assign(p, imageUrl) : p))`. -/
def updateBySceneNumber (panels : List ComicPanelData) (sn : JVal)
    (url : List Char) : List ComicPanelData :=
  panels.map (fun p =>
    if jsStrictEq p.scene_number sn then { p with imageUrl := some url } else p)

/-- `setError(prev => prev ? prev + newline + msg : msg)`. -/
def appendError (e : Option (List Char)) (msg : List Char) : Option (List Char) :=
  match e with
  | some prev => some (prev ++ '\n' :: msg)
  | none => some msg

/-- The per-panel failure line appended to the error log:
`Error on panel (scene_number): (message)`. -/
def imgErrMsgFor (sn : JVal) (m : List Char) : List Char :=
  "Error on panel ".toList ++ jsToString sn ++ ": ".toList ++ m

/-- The controller's sequential image loop over `scenePrompts`: panel i's
call (its outcome is the oracle's value at i) completes before panel
i+1's begins; a success writes the data URL, a failure writes the error
sentinel and appends a log line; both are keyed by scene_number. -/
def runImagePhase (oracle : Nat → Except (List Char) (List Char)) :
    List ComicPanelData → Nat → List ComicPanelData × Option (List Char) →
    (List ComicPanelData × Option (List Char)) × List AppEvent
  | [], _, st => (st, [])
  | panel :: rest, i, (panels, err) =>
    match oracle i with
    | .ok url =>
      let r := runImagePhase oracle rest (i + 1)
        (updateBySceneNumber panels panel.scene_number url, err)
      (r.1, .calledImage panel.scene_number :: r.2)
    | .error m =>
      let msg := imgErrMsgFor panel.scene_number m
      let r := runImagePhase oracle rest (i + 1)
        (updateBySceneNumber panels panel.scene_number errSentinel,
         appendError err msg)
      (r.1, .calledImage panel.scene_number :: .loggedError msg :: r.2)

/-- The UI-facing state of a finished (or fatally failed) run. -/
structure AppState where
  panels : List ComicPanelData
  error : Option (List Char)
  completed : Bool

/-- `handleComicGeneration` (src/App.tsx): scene acquisition (its result
is an input: a fatal throw with a message, or a panel list), the
empty-scenes fallback with its warning, the sequential image phase, and
the final completion step.  A scene-acquisition throw is caught by the
outer catch, which records the message and clears the panels. -/
def handleComicGeneration (story style era : List Char)
    (sceneResult : Except (List Char) (List ComicPanelData))
    (imgOracle : Nat → Except (List Char) (List Char)) :
    AppState × List AppEvent :=
  match sceneResult with
  | .error msg => ({ panels := [], error := some msg, completed := false }, [])
  | .ok scenes =>
    let fellBack := scenes.isEmpty
    let scenePrompts :=
      if fellBack then [fallbackPanel story style era] else scenes
    let err0 : Option (List Char) :=
      if fellBack then some fallbackWarning else none
    let initialPanels := scenePrompts.map (fun p => { p with imageUrl := none })
    let r := runImagePhase imgOracle scenePrompts 0 (initialPanels, err0)
    ({ panels := r.1.1, error := r.1.2, completed := true }, r.2)

/-! Auxiliary observation functions and concrete sample data used by the
verification statements. -/

/-- Is the event the start of an attempt? -/
def isAttemptedEv : RunEvent → Bool
  | .attempted _ => true
  | .delayed _ => false

/-- Project an image-call event to the scene number it was issued for. -/
def callSn : AppEvent → Option JVal
  | .calledImage sn => some sn
  | .loggedError _ => none

/-- A raw scene record whose scene_number is the (truthy) number 2. -/
def recSn2 : JVal := .jobj [("scene_number".toList, .jnum 2)]

/-- A minimal normalized panel with scene number 1. -/
def panelOne : ComicPanelData :=
  { scene_number := .jnum 1
    image_prompt := .jstr ('p' :: [])
    caption := .jnull
    dialogues := [] }

/-- A minimal normalized panel with scene number 2. -/
def panelTwo : ComicPanelData :=
  { scene_number := .jnum 2
    image_prompt := .jstr ('q' :: [])
    caption := .jnull
    dialogues := [] }

/-- An image oracle whose first call fails and whose later calls succeed. -/
def failThenOk : Nat → Except (List Char) (List Char) :=
  fun i => if i = 0 then .error ("boom".toList) else .ok ("data:ok".toList)

/-- An image oracle that always succeeds. -/
def alwaysOk : Nat → Except (List Char) (List Char) :=
  fun _ => .ok ('u' :: [])

/-- The panel produced by normalizing the empty raw record (all fields
absent) at index 0 with captions disabled and style s, era e. -/
def panelDefaulted : ComicPanelData :=
  { scene_number := .jnum 1
    image_prompt := .jstr (('u' :: 'n' :: 'd' :: 'e' :: 'f' :: 'i' :: 'n' :: 'e' :: 'd' :: []) ++
      styleEraSuffix ('s' :: []) ('e' :: []))
    caption := .jnull
    dialogues := [] }

/-- The panel produced by the Gemini variant normalizing the empty raw
record at index 0 with captions disabled. -/
def panelGemDefaulted : ComicPanelData :=
  { scene_number := .jnum 1
    image_prompt := .jundef
    caption := .jnull
    dialogues := [] }

/-! Theorems. -/

/-- Every image-phase trace lists its calls in the order of the panel
array handed to it. -/
theorem runImagePhase_calls (oracle : Nat → Except (List Char) (List Char)) :
    ∀ (rest : List ComicPanelData) (k : Nat)
      (st : List ComicPanelData × Option (List Char)),
      (runImagePhase oracle rest k st).2.filterMap callSn =
        rest.map (fun p => p.scene_number) := by
  intro rest
  induction rest with
  | nil => intro k st; rfl
  | cons p rest ih =>
    intro k st
    obtain ⟨panels, err⟩ := st
    cases h : oracle k <;> simp [runImagePhase, h, callSn, ih]

/-- C10 (amended): the controller issues the image calls sequentially in
the order of the scene-prompt array (the fallback panel when the array
was empty), each call completing before the next begins; ascending
scene_number order holds only when the array is already so ordered. -/
theorem image_call_order :
    ∀ (story style era : List Char) (scenes : List ComicPanelData)
      (oracle : Nat → Except (List Char) (List Char)),
      (handleComicGeneration story style era (.ok scenes) oracle).2.filterMap callSn =
        (if scenes.isEmpty then [fallbackPanel story style era] else scenes).map
          (fun p => p.scene_number) := by
  intro story style era scenes oracle
  simp only [handleComicGeneration]
  exact runImagePhase_calls oracle _ 0 _

/-- C10, counterexample to the claim as stated: with a normalized array
whose scene numbers are [2, 1], the controller calls the image backend
for scene 2 first, not in ascending scene_number order. -/
theorem image_call_order_counterexample :
    (handleComicGeneration ("st".toList) ("sy".toList) ("er".toList)
        (.ok [panelTwo, panelOne]) alwaysOk).2.filterMap callSn =
      [.jnum 2, .jnum 1] ∧
    ¬ ((2 : Int) ≤ 1) :=
  ⟨rfl, by decide⟩

/-- C4: whenever the lock-seed flag is set or character references are
present (indeed unconditionally), both image backends use the one fixed
constant seed for every call of the run. -/
theorem seed_pinning :
    ∀ (lockSeed : Bool) (characters : List CharacterReference),
      lockSeed = true ∨ characters ≠ [] →
      ∀ (p1 m1 s1 e1 p2 m2 s2 e2 : List Char) (ar1 ar2 : AspectRatio),
        (generateImageForPromptWithPollinations p1 m1 ar1).seed = FIXED_IMAGE_SEED ∧
        (generateImageForPromptWithPollinations p2 m2 ar2).seed =
          (generateImageForPromptWithPollinations p1 m1 ar1).seed ∧
        (buildGeminiImageRequest p1 ar1 m1 s1 e1).seed = FIXED_IMAGE_SEED ∧
        (buildGeminiImageRequest p2 ar2 m2 s2 e2).seed =
          (buildGeminiImageRequest p1 ar1 m1 s1 e1).seed := by
  intro _ _ _ p1 m1 s1 e1 p2 m2 s2 e2 ar1 ar2
  exact ⟨rfl, rfl, rfl, rfl⟩

/-- Witness for C4 at a concrete run with the lock-seed flag set. -/
theorem seed_pinning_witness :
    (generateImageForPromptWithPollinations ('a' :: []) ('m' :: []) .square).seed = FIXED_IMAGE_SEED ∧
    (generateImageForPromptWithPollinations ('b' :: []) ('m' :: []) .portrait).seed =
      (generateImageForPromptWithPollinations ('a' :: []) ('m' :: []) .square).seed ∧
    (buildGeminiImageRequest ('a' :: []) .square ('m' :: []) ('s' :: []) ('e' :: [])).seed = FIXED_IMAGE_SEED ∧
    (buildGeminiImageRequest ('b' :: []) .portrait ('m' :: []) ('s' :: []) ('e' :: [])).seed =
      (buildGeminiImageRequest ('a' :: []) .square ('m' :: []) ('s' :: []) ('e' :: [])).seed :=
  seed_pinning true [] (Or.inl rfl) ('a' :: []) ('m' :: []) ('s' :: []) ('e' :: [])
    ('b' :: []) ('m' :: []) ('s' :: []) ('e' :: []) .square .portrait

/-- C2: the free-text variant makes at most 3 attempts; it never rejects;
and when every attempt's body fails it sleeps a fixed 2000 ms before each
of the two retries and returns the empty array rather than throwing. -/
theorem pollinations_retry_budget :
    ∀ (ic : Bool) (style era : List Char) (oracle : Nat → Option (List Char)),
      ((generateScenePromptsWithPollinations ic style era oracle).1.countP isAttemptedEv ≤ 3) ∧
      (∃ ps, (generateScenePromptsWithPollinations ic style era oracle).2 = Except.ok ps) ∧
      ((∀ i, i < 3 → pollAttemptBody ic style era (oracle i) = .error ()) →
        generateScenePromptsWithPollinations ic style era oracle =
          ([.attempted 0, .delayed 2000, .attempted 1, .delayed 2000, .attempted 2],
           .ok [])) := by
  intro ic style era oracle
  refine ⟨?_, ?_, ?_⟩
  · cases h0 : pollAttemptBody ic style era (oracle 0) <;>
      cases h1 : pollAttemptBody ic style era (oracle 1) <;>
        cases h2 : pollAttemptBody ic style era (oracle 2) <;>
          simp [generateScenePromptsWithPollinations, pollLoop, h0, h1, h2, isAttemptedEv]
  · cases h0 : pollAttemptBody ic style era (oracle 0) <;>
      cases h1 : pollAttemptBody ic style era (oracle 1) <;>
        cases h2 : pollAttemptBody ic style era (oracle 2) <;>
          simp [generateScenePromptsWithPollinations, pollLoop, h0, h1, h2]
  · intro hfail
    have e0 := hfail 0 (by omega)
    have e1 := hfail 1 (by omega)
    have e2 := hfail 2 (by omega)
    simp [generateScenePromptsWithPollinations, pollLoop, e0, e1, e2]

/-- Witness for C2: an oracle whose fetches all fail yields the full
3-attempt trace and the empty array. -/
theorem pollinations_retry_budget_witness :
    generateScenePromptsWithPollinations true ('s' :: []) ('e' :: []) (fun _ => none) =
      ([.attempted 0, .delayed 2000, .attempted 1, .delayed 2000, .attempted 2],
       .ok []) :=
  (pollinations_retry_budget true ('s' :: []) ('e' :: []) (fun _ => none)).2.2
    (fun _ _ => rfl)

/-- C7 (amended): there is no lenient repair pass: a candidate substring
whose strict parse fails makes the whole attempt fail immediately (the
orchestrator then retries the entire request). -/
theorem parse_no_repair :
    ∀ (ic : Bool) (style era text cand : List Char),
      extractJson text = some cand → cand ≠ [] → jsonParse cand = none →
      pollAttemptBody ic style era (some text) = .error () := by
  intro ic style era text cand hext hne hparse
  simp [pollAttemptBody, hext, hne, hparse]

/-- Witness for C7 on the concrete trailing-comma reply. -/
theorem parse_no_repair_witness :
    pollAttemptBody false ('s' :: []) ('e' :: []) (some ("[1,]".toList)) = .error () :=
  parse_no_repair false ('s' :: []) ('e' :: []) ("[1,]".toList) ("[1,]".toList)
    rfl (by decide) rfl

/-- C7, counterexample to the claim as stated: on a reply whose only
defect is a trailing comma the claimed repair pass would parse the
repaired candidate into a non-empty array, but the code's attempt body
fails: no repair or re-parse exists. -/
theorem trailing_comma_counterexample :
    extractJson ("[1,]".toList) = some ("[1,]".toList) ∧
    jsonParse ("[1,]".toList) = none ∧
    jsonParse ("[1]".toList) = some (.jarr [.jnum 1]) ∧
    pollAttemptBody true ('s' :: []) ('e' :: []) (some ("[1,]".toList)) = .error () :=
  ⟨rfl, rfl, rfl, rfl⟩

/-- C8 (amended): every failure class alike is retried exactly once (two
attempts total) with a 2000 ms sleep before the retry; a first-attempt
success returns at once; exhaustion throws the aggregate error. -/
theorem gemini_image_retry :
    ∀ (oracle : Nat → Except GemErrorClass (List Char)),
      ((generateImageForPrompt oracle).1.countP isAttemptedEv ≤ 2) ∧
      (∀ u, oracle 0 = .ok u →
        generateImageForPrompt oracle = ([.attempted 0], .success u)) ∧
      (∀ c u, oracle 0 = .error c → oracle 1 = .ok u →
        generateImageForPrompt oracle =
          ([.attempted 0, .delayed 2000, .attempted 1], .success u)) ∧
      (∀ c c2, oracle 0 = .error c → oracle 1 = .error c2 →
        generateImageForPrompt oracle =
          ([.attempted 0, .delayed 2000, .attempted 1], .exhausted (some c2))) := by
  intro oracle
  refine ⟨?_, ?_, ?_, ?_⟩
  · cases h0 : oracle 0 <;> cases h1 : oracle 1 <;>
      simp [generateImageForPrompt, geminiImageLoop, h0, h1, isAttemptedEv]
  · intro u h0
    simp [generateImageForPrompt, geminiImageLoop, h0]
  · intro c u h0 h1
    simp [generateImageForPrompt, geminiImageLoop, h0, h1]
  · intro c c2 h0 h1
    simp [generateImageForPrompt, geminiImageLoop, h0, h1]

/-- Witness for C8 on an always-rate-limited oracle. -/
theorem gemini_image_retry_witness :
    generateImageForPrompt (fun _ => .error .rateLimit) =
      ([.attempted 0, .delayed 2000, .attempted 1], .exhausted (some .rateLimit)) :=
  (gemini_image_retry (fun _ => .error .rateLimit)).2.2.2 .rateLimit .rateLimit rfl rfl

/-- C8, counterexample to the claim as stated: a safety-policy block is
retried (a second attempt occurs after a delay) instead of propagating
immediately, and the backoff is linear without jitter. -/
theorem safety_block_retried_counterexample :
    (generateImageForPrompt (fun _ => .error .safetyBlock)).1 =
      [.attempted 0, .delayed 2000, .attempted 1] ∧
    RunEvent.attempted 1 ∈ (generateImageForPrompt (fun _ => .error .safetyBlock)).1 ∧
    (generateImageForPrompt (fun _ => .error .safetyBlock)).2 =
      .exhausted (some .safetyBlock) :=
  ⟨rfl, by decide, rfl⟩

/-- Inversion of a successful `Except` bind. -/
theorem except_bind_ok {ε α β : Type} (x : Except ε α) (f : α → Except ε β)
    (c : β) (h : Except.bind x f = .ok c) : ∃ b, x = .ok b ∧ f b = .ok c := by
  cases x with
  | error a => exact Except.noConfusion h
  | ok b => exact ⟨b, rfl, h⟩

/-- Inversion of a successful Pollinations scene normalization: the four
member accesses succeeded and the panel is built from them. -/
theorem normalizeScenePoll_ok_fields (ic : Bool) (s e : List Char) (i : Nat)
    (raw : JVal) (x : ComicPanelData)
    (h : normalizeScenePoll ic s e i raw = .ok x) :
    ∃ snv ipv capv dlv : JVal,
      jget raw ("scene_number".toList) = .ok snv ∧
      jget raw ("image_prompt".toList) = .ok ipv ∧
      jget raw ("caption".toList) = .ok capv ∧
      jget raw ("dialogues".toList) = .ok dlv ∧
      x = { scene_number := if truthy snv then snv else .jnum (i + 1 : Nat)
            image_prompt := .jstr (jsToString ipv ++ styleEraSuffix s e)
            caption := if ic then capv else .jnull
            dialogues := if ic then (match dlv with | .jarr xs => xs | _ => []) else []
            imageUrl := none } := by
  cases raw with
  | jundef => exact Except.noConfusion h
  | jnull => exact Except.noConfusion h
  | jbool b => exact ⟨_, _, _, _, rfl, rfl, rfl, rfl, (Except.ok.inj h).symm⟩
  | jnum n => exact ⟨_, _, _, _, rfl, rfl, rfl, rfl, (Except.ok.inj h).symm⟩
  | jstr s2 => exact ⟨_, _, _, _, rfl, rfl, rfl, rfl, (Except.ok.inj h).symm⟩
  | jarr xs => exact ⟨_, _, _, _, rfl, rfl, rfl, rfl, (Except.ok.inj h).symm⟩
  | jobj kvs => exact ⟨_, _, _, _, rfl, rfl, rfl, rfl, (Except.ok.inj h).symm⟩

/-- Inversion of a successful Gemini scene normalization. -/
theorem normalizeSceneGemini_ok_fields (ic : Bool) (i : Nat)
    (raw : JVal) (x : ComicPanelData)
    (h : normalizeSceneGemini ic i raw = .ok x) :
    ∃ snv ipv capv dlv : JVal,
      jget raw ("scene_number".toList) = .ok snv ∧
      jget raw ("image_prompt".toList) = .ok ipv ∧
      jget raw ("caption".toList) = .ok capv ∧
      jget raw ("dialogues".toList) = .ok dlv ∧
      x = { scene_number := if truthy snv then snv else .jnum (i + 1 : Nat)
            image_prompt := ipv
            caption := if ic then capv else .jnull
            dialogues := if ic then (match dlv with | .jarr xs => xs | _ => []) else []
            imageUrl := none } := by
  cases raw with
  | jundef => exact Except.noConfusion h
  | jnull => exact Except.noConfusion h
  | jbool b => exact ⟨_, _, _, _, rfl, rfl, rfl, rfl, (Except.ok.inj h).symm⟩
  | jnum n => exact ⟨_, _, _, _, rfl, rfl, rfl, rfl, (Except.ok.inj h).symm⟩
  | jstr s2 => exact ⟨_, _, _, _, rfl, rfl, rfl, rfl, (Except.ok.inj h).symm⟩
  | jarr xs => exact ⟨_, _, _, _, rfl, rfl, rfl, rfl, (Except.ok.inj h).symm⟩
  | jobj kvs => exact ⟨_, _, _, _, rfl, rfl, rfl, rfl, (Except.ok.inj h).symm⟩

/-- Element-wise description of a successful Pollinations normalization
run starting at index i. -/
theorem normalizeScenesPollGo_get (ic : Bool) (s e : List Char) :
    ∀ (scenes : List JVal) (i : Nat) (panels : List ComicPanelData),
      normalizeScenesPollGo ic s e i scenes = .ok panels →
      panels.length = scenes.length ∧
      (∀ j, j < scenes.length → ∃ raw x, scenes[j]? = some raw ∧
        panels[j]? = some x ∧ normalizeScenePoll ic s e (i + j) raw = .ok x) := by
  intro scenes
  induction scenes with
  | nil =>
    intro i panels h
    have hp : panels = [] := (Except.ok.inj h).symm
    subst hp
    exact ⟨rfl, fun j hj => by simp at hj⟩
  | cons raw rest ih =>
    intro i panels h
    obtain ⟨x0, hx, h2⟩ := except_bind_ok _ _ _ h
    obtain ⟨ps, hr, h3⟩ := except_bind_ok _ _ _ h2
    have hp : panels = x0 :: ps := (Except.ok.inj h3).symm
    subst hp
    obtain ⟨ihlen, ihget⟩ := ih (i + 1) ps hr
    refine ⟨by simp [ihlen], ?_⟩
    intro j hj
    cases j with
    | zero => exact ⟨raw, x0, by simp, by simp, by simpa using hx⟩
    | succ j2 =>
      obtain ⟨raw2, x2, hs2, hp2, hn2⟩ := ihget j2 (by simpa using hj)
      refine ⟨raw2, x2, by simpa using hs2, by simpa using hp2, ?_⟩
      rw [show i + (j2 + 1) = (i + 1) + j2 by omega]
      exact hn2

/-- C5: with the caption-inclusion flag off, both normalization variants
force caption to null and dialogues to the empty array, whatever the raw
records contained. -/
theorem caption_suppression :
    ∀ (style era : List Char) (scenes : List JVal)
      (panelsP panelsG : List ComicPanelData),
      (normalizeScenesPoll false style era scenes = .ok panelsP →
        ∀ p ∈ panelsP, p.caption = .jnull ∧ p.dialogues = []) ∧
      (normalizeScenesGemini false scenes = .ok panelsG →
        ∀ p ∈ panelsG, p.caption = .jnull ∧ p.dialogues = []) := by
  intro style era scenes panelsP panelsG
  constructor
  · have main : ∀ (sc : List JVal) (i : Nat) (ps : List ComicPanelData),
        normalizeScenesPollGo false style era i sc = .ok ps →
        ∀ p ∈ ps, p.caption = .jnull ∧ p.dialogues = [] := by
      intro sc
      induction sc with
      | nil =>
        intro i ps h
        have hp : ps = [] := (Except.ok.inj h).symm
        subst hp
        intro p hp2
        simp at hp2
      | cons raw rest ih =>
        intro i ps h
        obtain ⟨x0, hx, h2⟩ := except_bind_ok _ _ _ h
        obtain ⟨ps2, hr, h3⟩ := except_bind_ok _ _ _ h2
        have hp : ps = x0 :: ps2 := (Except.ok.inj h3).symm
        subst hp
        intro p hp2
        rcases List.mem_cons.mp hp2 with h4 | h4
        · subst h4
          obtain ⟨snv, ipv, capv, dlv, _, _, _, _, hx2⟩ :=
            normalizeScenePoll_ok_fields false style era i raw p hx
          subst hx2
          exact ⟨rfl, rfl⟩
        · exact ih (i + 1) ps2 hr p h4
    exact main scenes 0 panelsP
  · have main : ∀ (sc : List JVal) (i : Nat) (ps : List ComicPanelData),
        normalizeScenesGeminiGo false i sc = .ok ps →
        ∀ p ∈ ps, p.caption = .jnull ∧ p.dialogues = [] := by
      intro sc
      induction sc with
      | nil =>
        intro i ps h
        have hp : ps = [] := (Except.ok.inj h).symm
        subst hp
        intro p hp2
        simp at hp2
      | cons raw rest ih =>
        intro i ps h
        obtain ⟨x0, hx, h2⟩ := except_bind_ok _ _ _ h
        obtain ⟨ps2, hr, h3⟩ := except_bind_ok _ _ _ h2
        have hp : ps = x0 :: ps2 := (Except.ok.inj h3).symm
        subst hp
        intro p hp2
        rcases List.mem_cons.mp hp2 with h4 | h4
        · subst h4
          obtain ⟨snv, ipv, capv, dlv, _, _, _, _, hx2⟩ :=
            normalizeSceneGemini_ok_fields false i raw p hx
          subst hx2
          exact ⟨rfl, rfl⟩
        · exact ih (i + 1) ps2 hr p h4
    exact main scenes 0 panelsG

/-- C6 (amended): each normalized panel's scene_number is the raw value
when truthy and index + 1 otherwise; positivity and uniqueness are
guaranteed when every raw scene_number is absent or falsy (truthy raw
values pass through and may repeat or be non-positive). -/
theorem scene_number_defaulting :
    ∀ (ic : Bool) (style era : List Char) (scenes : List JVal)
      (panels : List ComicPanelData),
      normalizeScenesPoll ic style era scenes = .ok panels →
      (∀ j, j < scenes.length →
        ∃ raw x snv, scenes[j]? = some raw ∧ panels[j]? = some x ∧
          jget raw ("scene_number".toList) = .ok snv ∧
          x.scene_number = (if truthy snv then snv else .jnum (j + 1 : Nat))) ∧
      ((∀ raw ∈ scenes, ∀ snv, jget raw ("scene_number".toList) = .ok snv →
          truthy snv = false) →
        panels.map (fun p => p.scene_number) =
          (List.range scenes.length).map (fun j => .jnum (j + 1 : Nat)) ∧
        (panels.map (fun p => p.scene_number)).Nodup ∧
        (∀ v ∈ panels.map (fun p => p.scene_number), ∃ n : Int, v = .jnum n ∧ 0 < n)) := by
  intro ic style era scenes panels h
  obtain ⟨hlen, hget⟩ := normalizeScenesPollGo_get ic style era scenes 0 panels h
  have formula : ∀ j, j < scenes.length →
      ∃ raw x snv, scenes[j]? = some raw ∧ panels[j]? = some x ∧
        jget raw ("scene_number".toList) = .ok snv ∧
        x.scene_number = (if truthy snv then snv else .jnum (j + 1 : Nat)) := by
    intro j hj
    obtain ⟨raw, x, hs, hp, hn⟩ := hget j hj
    obtain ⟨snv, ipv, capv, dlv, h1, _, _, _, hx⟩ :=
      normalizeScenePoll_ok_fields ic style era (0 + j) raw x (by simpa using hn)
    subst hx
    exact ⟨raw, _, snv, hs, hp, h1, by simp⟩
  refine ⟨formula, ?_⟩
  intro hfalsy
  have hmap : panels.map (fun p => p.scene_number) =
      (List.range scenes.length).map (fun j => .jnum (j + 1 : Nat)) := by
    apply List.ext_getElem?
    intro j
    by_cases hj : j < scenes.length
    · obtain ⟨raw, x, snv, hs, hp, hsn, hx⟩ := formula j hj
      have hf : truthy snv = false :=
        hfalsy raw (List.getElem?_mem hs) snv hsn
      rw [List.getElem?_map, hp, List.getElem?_map, List.getElem?_range hj]
      simp [hx, hf]
    · have h1 : panels.length ≤ j := by omega
      have h2 : (List.range scenes.length).length ≤ j := by simp; omega
      rw [List.getElem?_map, List.getElem?_map,
        List.getElem?_eq_none h1, List.getElem?_eq_none h2]
      rfl
  refine ⟨hmap, ?_, ?_⟩
  · rw [hmap]
    refine List.Nodup.map ?_ (List.nodup_range scenes.length)
    intro a b hab
    have : ((a : Int) + 1) = ((b : Int) + 1) := JVal.jnum.inj hab
    omega
  · intro v hv
    rw [hmap] at hv
    simp only [List.mem_map, List.mem_range] at hv
    obtain ⟨j, _, hj2⟩ := hv
    exact ⟨((j + 1 : Nat) : Int), hj2.symm, by omega⟩

/-- Witness for C6: one raw record with no scene_number normalizes to the
defaulted, unique, positive numbering [1]. -/
theorem scene_number_defaulting_witness :
    [panelDefaulted].map (fun p => p.scene_number) =
      (List.range 1).map (fun j => .jnum (j + 1 : Nat)) ∧
    ([panelDefaulted].map (fun p => p.scene_number)).Nodup :=
  have hfalsy : ∀ raw ∈ [JVal.jobj []], ∀ snv,
      jget raw ("scene_number".toList) = .ok snv → truthy snv = false := by
    intro raw hraw snv hsnv
    rw [List.mem_singleton] at hraw
    subst hraw
    have : snv = .jundef := (Except.ok.inj hsnv).symm
    subst this
    rfl
  have main := (scene_number_defaulting false ('s' :: []) ('e' :: [])
    [JVal.jobj []] [panelDefaulted] (by rfl)).2 hfalsy
  ⟨main.1, main.2.1⟩

/-- C6, counterexample to the claim as stated: two raw records whose
scene_number is the truthy value 2 normalize to the duplicated numbering
[2, 2], which is not unique within the run. -/
theorem scene_number_duplicate_counterexample :
    (normalizeScenesPoll false ('s' :: []) ('e' :: []) [recSn2, recSn2]).map
        (fun ps => ps.map (fun p => p.scene_number)) =
      .ok [.jnum 2, .jnum 2] ∧
    ¬ ([JVal.jnum 2, JVal.jnum 2].Nodup) :=
  ⟨rfl, by simp⟩

/-- The keyed update leaves every field except imageUrl unchanged. -/
theorem updateBySceneNumber_mem (panels : List ComicPanelData) (sn : JVal)
    (url : List Char) (q : ComicPanelData)
    (hq : q ∈ updateBySceneNumber panels sn url) :
    ∃ p ∈ panels, q.scene_number = p.scene_number ∧
      q.image_prompt = p.image_prompt ∧ q.caption = p.caption ∧
      q.dialogues = p.dialogues := by
  obtain ⟨p, hp, hq2⟩ := List.mem_map.mp hq
  refine ⟨p, hp, ?_⟩
  subst hq2
  cases hc : jsStrictEq p.scene_number sn <;> simp [hc]

/-- The image phase never changes a panel's descriptor fields. -/
theorem runImagePhase_mem (oracle : Nat → Except (List Char) (List Char)) :
    ∀ (rest : List ComicPanelData) (k : Nat) (panels : List ComicPanelData)
      (err : Option (List Char)),
      ∀ q ∈ (runImagePhase oracle rest k (panels, err)).1.1,
        ∃ p ∈ panels, q.scene_number = p.scene_number ∧
          q.image_prompt = p.image_prompt ∧ q.caption = p.caption ∧
          q.dialogues = p.dialogues := by
  intro rest
  induction rest with
  | nil =>
    intro k panels err q hq
    exact ⟨q, hq, rfl, rfl, rfl, rfl⟩
  | cons p0 rest ih =>
    intro k panels err q hq
    simp only [runImagePhase] at hq
    cases h : oracle k with
    | ok u =>
      rw [h] at hq
      obtain ⟨p1, hp1, hf⟩ := ih (k + 1) _ _ q hq
      obtain ⟨p2, hp2, hg⟩ := updateBySceneNumber_mem _ _ _ _ hp1
      exact ⟨p2, hp2, hf.1.trans hg.1, hf.2.1.trans hg.2.1,
        hf.2.2.1.trans hg.2.2.1, hf.2.2.2.trans hg.2.2.2⟩
    | error m =>
      rw [h] at hq
      obtain ⟨p1, hp1, hf⟩ := ih (k + 1) _ _ q hq
      obtain ⟨p2, hp2, hg⟩ := updateBySceneNumber_mem _ _ _ _ hp1
      exact ⟨p2, hp2, hf.1.trans hg.1, hf.2.1.trans hg.2.1,
        hf.2.2.1.trans hg.2.2.1, hf.2.2.2.trans hg.2.2.2⟩

/-- The image phase preserves the number of panels. -/
theorem runImagePhase_length (oracle : Nat → Except (List Char) (List Char)) :
    ∀ (rest : List ComicPanelData) (k : Nat) (panels : List ComicPanelData)
      (err : Option (List Char)),
      (runImagePhase oracle rest k (panels, err)).1.1.length = panels.length := by
  intro rest
  induction rest with
  | nil => intro k panels err; rfl
  | cons p0 rest ih =>
    intro k panels err
    cases h : oracle k <;>
      simp [runImagePhase, h, ih, updateBySceneNumber]

/-- The image phase only ever appends to an existing error log. -/
theorem runImagePhase_error_mono (oracle : Nat → Except (List Char) (List Char)) :
    ∀ (rest : List ComicPanelData) (k : Nat) (panels : List ComicPanelData)
      (s : List Char),
      ∃ s2, (runImagePhase oracle rest k (panels, some s)).1.2 = some s2 ∧
        s <+: s2 := by
  intro rest
  induction rest with
  | nil => intro k panels s; exact ⟨s, rfl, List.prefix_refl s⟩
  | cons p0 rest ih =>
    intro k panels s
    cases h : oracle k with
    | ok u =>
      obtain ⟨s2, h1, h2⟩ := ih (k + 1) (updateBySceneNumber panels p0.scene_number u) s
      exact ⟨s2, by simp [runImagePhase, h]; exact h1, h2⟩
    | error m =>
      obtain ⟨s2, h1, h2⟩ := ih (k + 1)
        (updateBySceneNumber panels p0.scene_number errSentinel)
        (s ++ '\n' :: imgErrMsgFor p0.scene_number m)
      refine ⟨s2, by simp [runImagePhase, h, appendError]; exact h1, ?_⟩
      exact (List.prefix_append s ('\n' :: imgErrMsgFor p0.scene_number m)).trans h2

/-- C3: when scene acquisition yields the empty list the controller
synthesizes exactly one panel — scene_number 1, image_prompt the verbatim
story followed by the style/era suffix, the fixed marker caption and the
fixed one-element dialogues — emits the non-fatal warning, and the run
still completes. -/
theorem fallback_synthesis :
    ∀ (story style era : List Char) (oracle : Nat → Except (List Char) (List Char)),
      (fallbackPanel story style era).scene_number = .jnum 1 ∧
      (fallbackPanel story style era).image_prompt =
        .jstr (story ++ styleEraSuffix style era) ∧
      story <+: (story ++ styleEraSuffix style era) ∧
      styleEraSuffix style era <:+ (story ++ styleEraSuffix style era) ∧
      (fallbackPanel story style era).caption = .jstr ("Fallback: Full Story".toList) ∧
      (fallbackPanel story style era).dialogues = [.jstr ("Scene generation failed.".toList)] ∧
      (handleComicGeneration story style era (.ok []) oracle).1.completed = true ∧
      (handleComicGeneration story style era (.ok []) oracle).1.panels.length = 1 ∧
      (∀ q ∈ (handleComicGeneration story style era (.ok []) oracle).1.panels,
        q.scene_number = .jnum 1 ∧
        q.image_prompt = .jstr (story ++ styleEraSuffix style era) ∧
        q.caption = .jstr ("Fallback: Full Story".toList) ∧
        q.dialogues = [.jstr ("Scene generation failed.".toList)]) ∧
      (∃ s2, (handleComicGeneration story style era (.ok []) oracle).1.error = some s2 ∧
        fallbackWarning <+: s2) := by
  intro story style era oracle
  refine ⟨rfl, rfl, List.prefix_append story (styleEraSuffix style era),
    List.suffix_append story (styleEraSuffix style era), rfl, rfl, rfl, ?_, ?_, ?_⟩
  · exact runImagePhase_length oracle _ 0 _ _
  · intro q hq
    obtain ⟨p, hp, hf⟩ := runImagePhase_mem oracle _ 0 _ _ q hq
    simp at hp
    subst hp
    exact ⟨hf.1, hf.2.1, hf.2.2.1, hf.2.2.2⟩
  · exact runImagePhase_error_mono oracle _ 0 _ fallbackWarning

/-- Witness for C5: the concrete empty raw record normalizes, in both
variants, to a panel with null caption and empty dialogues. -/
theorem caption_suppression_witness :
    panelDefaulted.caption = .jnull ∧ panelDefaulted.dialogues = [] ∧
    panelGemDefaulted.caption = .jnull ∧ panelGemDefaulted.dialogues = [] :=
  have h := caption_suppression ('s' :: []) ('e' :: []) [JVal.jobj []]
    [panelDefaulted] [panelGemDefaulted]
  have h1 := h.1 (by rfl) panelDefaulted (by simp)
  have h2 := h.2 (by rfl) panelGemDefaulted (by simp)
  ⟨h1.1, h1.2, h2.1, h2.2⟩

/-- Strict equality against a numeric scene number is plain equality. -/
theorem jsStrictEq_jnum (x : JVal) (n : Int) :
    jsStrictEq x (.jnum n) = true ↔ x = .jnum n := by
  cases x <;> simp [jsStrictEq]

/-- In a duplicate-free list, positions holding the same value agree. -/
theorem nodup_getElem?_inj {L : List JVal} (h : L.Nodup) {j k : Nat} {v : JVal}
    (hj : L[j]? = some v) (hk : L[k]? = some v) : j = k := by
  have hjl : j < L.length := by
    by_contra hc
    rw [List.getElem?_eq_none (by omega)] at hj
    cases hj
  have hkl : k < L.length := by
    by_contra hc
    rw [List.getElem?_eq_none (by omega)] at hk
    cases hk
  have e1 : L[j] = v := by
    rw [List.getElem?_eq_getElem hjl] at hj
    exact Option.some.inj hj
  have e2 : L[k] = v := by
    rw [List.getElem?_eq_getElem hkl] at hk
    exact Option.some.inj hk
  exact (h.getElem_inj_iff).mp (e1.trans e2.symm)

/-- The keyed update does not change the scene numbers. -/
theorem updateBySceneNumber_map_sn (panels : List ComicPanelData) (sn : JVal)
    (url : List Char) :
    (updateBySceneNumber panels sn url).map (fun p => p.scene_number) =
      panels.map (fun p => p.scene_number) := by
  unfold updateBySceneNumber
  rw [List.map_map]
  apply List.map_congr_left
  intro p hp
  cases hc : jsStrictEq p.scene_number sn <;> simp [hc]

/-- Full description of the image phase under unique numeric scene
numbers: panels before the window are untouched, panel k + d ends with
the d-th call's terminal outcome (its URL on success, the error sentinel
on failure), and every failure appends its log line to the trace. -/
theorem runImagePhase_spec (oracle : Nat → Except (List Char) (List Char)) :
    ∀ (rest : List ComicPanelData) (front : List JVal)
      (panels : List ComicPanelData) (err : Option (List Char)),
      panels.map (fun p => p.scene_number) =
        front ++ rest.map (fun p => p.scene_number) →
      (panels.map (fun p => p.scene_number)).Nodup →
      (∀ r ∈ rest, ∃ n : Int, r.scene_number = .jnum n) →
      (∀ j, j < front.length →
        (runImagePhase oracle rest front.length (panels, err)).1.1[j]? = panels[j]?) ∧
      (∀ d, d < rest.length →
        ((runImagePhase oracle rest front.length (panels, err)).1.1[front.length + d]?).map
            (fun q => q.imageUrl) =
          some (some (match oracle (front.length + d) with
                      | .ok u => u
                      | .error _ => errSentinel))) ∧
      (∀ d m, d < rest.length → oracle (front.length + d) = .error m →
        ∃ r, rest[d]? = some r ∧
          AppEvent.loggedError (imgErrMsgFor r.scene_number m) ∈
            (runImagePhase oracle rest front.length (panels, err)).2) := by
  intro rest
  induction rest with
  | nil =>
    intro front panels err hsn hnd hjn
    refine ⟨fun j hj => rfl, fun d hd => by simp at hd, fun d m hd hm => by simp at hd⟩
  | cons r0 rest ih =>
    intro front panels err hsn hnd hjn
    obtain ⟨n0, hn0⟩ := hjn r0 (List.mem_cons_self r0 rest)
    have hmapk : (panels.map (fun p => p.scene_number))[front.length]? =
        some r0.scene_number := by
      rw [hsn, List.getElem?_append_right (Nat.le_refl _)]
      simp
    obtain ⟨pk, hpk, hpk2⟩ : ∃ pk, panels[front.length]? = some pk ∧
        pk.scene_number = r0.scene_number := by
      rw [List.getElem?_map] at hmapk
      cases hq : panels[front.length]? with
      | none => rw [hq] at hmapk; cases hmapk
      | some pk => rw [hq] at hmapk; exact ⟨pk, rfl, Option.some.inj hmapk⟩
    have hupd_k : ∀ (url : List Char),
        (updateBySceneNumber panels r0.scene_number url)[front.length]? =
          some { pk with imageUrl := some url } := by
      intro url
      unfold updateBySceneNumber
      rw [List.getElem?_map, hpk]
      simp only [Option.map_some']
      rw [if_pos]
      rw [hpk2, hn0]
      exact (jsStrictEq_jnum _ _).mpr rfl
    have hupd_ne : ∀ (url : List Char) (j : Nat), j ≠ front.length →
        (updateBySceneNumber panels r0.scene_number url)[j]? = panels[j]? := by
      intro url j hne
      unfold updateBySceneNumber
      rw [List.getElem?_map]
      cases hq : panels[j]? with
      | none => rfl
      | some pj =>
        simp only [Option.map_some']
        rw [if_neg]
        intro hcond
        have hpj : pj.scene_number = .jnum n0 := by
          rw [hn0] at hcond
          exact (jsStrictEq_jnum _ _).mp hcond
        have hmapj : (panels.map (fun p => p.scene_number))[j]? = some (.jnum n0) := by
          rw [List.getElem?_map, hq]
          simp only [Option.map_some']
          rw [hpj]
        have hmapk2 : (panels.map (fun p => p.scene_number))[front.length]? =
            some (.jnum n0) := by
          rw [hmapk, hn0]
        exact hne (nodup_getElem?_inj hnd hmapj hmapk2)
    have hjn2 : ∀ r ∈ rest, ∃ n : Int, r.scene_number = .jnum n :=
      fun r hr => hjn r (List.mem_cons_of_mem _ hr)
    have hflen : (front ++ [r0.scene_number]).length = front.length + 1 := by simp
    cases horc : oracle front.length with
    | ok u =>
      have hsn2 : (updateBySceneNumber panels r0.scene_number u).map
          (fun p => p.scene_number) =
          (front ++ [r0.scene_number]) ++ rest.map (fun p => p.scene_number) := by
        rw [updateBySceneNumber_map_sn, hsn]
        simp
      have hnd2 : ((updateBySceneNumber panels r0.scene_number u).map
          (fun p => p.scene_number)).Nodup := by
        rw [updateBySceneNumber_map_sn]
        exact hnd
      obtain ⟨iha, ihb, ihc⟩ := ih (front ++ [r0.scene_number])
        (updateBySceneNumber panels r0.scene_number u) err hsn2 hnd2 hjn2
      rw [hflen] at iha ihb ihc
      refine ⟨?_, ?_, ?_⟩
      · intro j hj
        simp only [runImagePhase, horc]
        exact (iha j (by omega)).trans (hupd_ne u j (by omega))
      · intro d hd
        cases d with
        | zero =>
          simp only [runImagePhase, horc, Nat.add_zero]
          rw [iha front.length (by omega), hupd_k u]
          rfl
        | succ d2 =>
          simp only [runImagePhase, horc]
          have he : front.length + (d2 + 1) = (front.length + 1) + d2 := by omega
          rw [he]
          exact ihb d2 (by simpa using hd)
      · intro d m hd hm
        cases d with
        | zero =>
          rw [Nat.add_zero, horc] at hm
          cases hm
        | succ d2 =>
          have he : front.length + (d2 + 1) = (front.length + 1) + d2 := by omega
          rw [he] at hm
          obtain ⟨r, hr1, hr2⟩ := ihc d2 m (by simpa using hd) hm
          refine ⟨r, by simpa using hr1, ?_⟩
          simp only [runImagePhase, horc]
          exact List.mem_cons_of_mem _ hr2
    | error m0 =>
      have hsn2 : (updateBySceneNumber panels r0.scene_number errSentinel).map
          (fun p => p.scene_number) =
          (front ++ [r0.scene_number]) ++ rest.map (fun p => p.scene_number) := by
        rw [updateBySceneNumber_map_sn, hsn]
        simp
      have hnd2 : ((updateBySceneNumber panels r0.scene_number errSentinel).map
          (fun p => p.scene_number)).Nodup := by
        rw [updateBySceneNumber_map_sn]
        exact hnd
      obtain ⟨iha, ihb, ihc⟩ := ih (front ++ [r0.scene_number])
        (updateBySceneNumber panels r0.scene_number errSentinel)
        (appendError err (imgErrMsgFor r0.scene_number m0)) hsn2 hnd2 hjn2
      rw [hflen] at iha ihb ihc
      refine ⟨?_, ?_, ?_⟩
      · intro j hj
        simp only [runImagePhase, horc]
        exact (iha j (by omega)).trans (hupd_ne errSentinel j (by omega))
      · intro d hd
        cases d with
        | zero =>
          simp only [runImagePhase, horc, Nat.add_zero]
          rw [iha front.length (by omega), hupd_k errSentinel]
          rfl
        | succ d2 =>
          simp only [runImagePhase, horc]
          have he : front.length + (d2 + 1) = (front.length + 1) + d2 := by omega
          rw [he]
          exact ihb d2 (by simpa using hd)
      · intro d m hd hm
        cases d with
        | zero =>
          rw [Nat.add_zero, horc] at hm
          have hmm : m = m0 := (Except.error.inj hm).symm
          subst hmm
          refine ⟨r0, by simp, ?_⟩
          simp only [runImagePhase, horc]
          exact List.mem_cons_of_mem _ (List.mem_cons_self _ _)
        | succ d2 =>
          have he : front.length + (d2 + 1) = (front.length + 1) + d2 := by omega
          rw [he] at hm
          obtain ⟨r, hr1, hr2⟩ := ihc d2 m (by simpa using hd) hm
          refine ⟨r, by simpa using hr1, ?_⟩
          simp only [runImagePhase, horc]
          exact List.mem_cons_of_mem _ (List.mem_cons_of_mem _ hr2)

/-- C9 (amended): with a non-empty panel list whose scene numbers are
numeric and unique, a per-panel image failure never aborts the run: the
failing panel ends with the literal error sentinel, its message is
appended to the error log, the other panels are still processed to their
own terminal outcome, and the run reaches the complete state. -/
theorem panel_failure_isolation :
    ∀ (story style era : List Char) (scenes : List ComicPanelData)
      (oracle : Nat → Except (List Char) (List Char)),
      scenes ≠ [] →
      (∀ p ∈ scenes, ∃ n : Int, p.scene_number = .jnum n) →
      (scenes.map (fun p => p.scene_number)).Nodup →
      (handleComicGeneration story style era (.ok scenes) oracle).1.completed = true ∧
      (handleComicGeneration story style era (.ok scenes) oracle).1.panels.length =
        scenes.length ∧
      (∀ j, j < scenes.length →
        ((handleComicGeneration story style era (.ok scenes) oracle).1.panels[j]?).map
            (fun q => q.imageUrl) =
          some (some (match oracle j with
                      | .ok u => u
                      | .error _ => errSentinel))) ∧
      (∀ j m, j < scenes.length → oracle j = .error m →
        ∃ r, scenes[j]? = some r ∧
          AppEvent.loggedError (imgErrMsgFor r.scene_number m) ∈
            (handleComicGeneration story style era (.ok scenes) oracle).2) := by
  intro story style era scenes oracle hne hjn hnd
  have hie : scenes.isEmpty = false := by
    cases scenes with
    | nil => exact absurd rfl hne
    | cons a t => rfl
  have hrun : handleComicGeneration story style era (.ok scenes) oracle =
      ({ panels := (runImagePhase oracle scenes 0
            (scenes.map (fun p => { p with imageUrl := none }), none)).1.1,
         error := (runImagePhase oracle scenes 0
            (scenes.map (fun p => { p with imageUrl := none }), none)).1.2,
         completed := true },
       (runImagePhase oracle scenes 0
          (scenes.map (fun p => { p with imageUrl := none }), none)).2) := by
    simp [handleComicGeneration, hie]
  have hinit : (scenes.map (fun p => ({ p with imageUrl := none } : ComicPanelData))).map
      (fun p => p.scene_number) = scenes.map (fun p => p.scene_number) := by
    rw [List.map_map]
    exact List.map_congr_left (fun p _ => rfl)
  have hspec := runImagePhase_spec oracle scenes ([] : List JVal)
    (scenes.map (fun p => { p with imageUrl := none })) none
    (by rw [hinit]; rfl) (by rw [hinit]; exact hnd) hjn
  obtain ⟨_, hb, hc⟩ := hspec
  simp only [List.length_nil, Nat.zero_add] at hb hc
  refine ⟨by rw [hrun], ?_, ?_, ?_⟩
  · rw [hrun]
    exact (runImagePhase_length oracle scenes 0 _ none).trans (by simp)
  · intro j hj
    rw [hrun]
    exact hb j hj
  · intro j m hj hm
    rw [hrun]
    exact hc j m hj hm

/-- Witness for C9: two uniquely numbered panels, the first call fails,
the run completes with the sentinel on panel 0. -/
theorem panel_failure_isolation_witness :
    (handleComicGeneration ("st".toList) ("sy".toList) ("er".toList)
        (.ok [panelOne, panelTwo]) failThenOk).1.completed = true ∧
    (handleComicGeneration ("st".toList) ("sy".toList) ("er".toList)
        (.ok [panelOne, panelTwo]) failThenOk).1.panels.length = 2 ∧
    ((handleComicGeneration ("st".toList) ("sy".toList) ("er".toList)
        (.ok [panelOne, panelTwo]) failThenOk).1.panels[0]?).map
      (fun q => q.imageUrl) = some (some errSentinel) :=
  have h := panel_failure_isolation ("st".toList) ("sy".toList) ("er".toList)
    [panelOne, panelTwo] failThenOk (by simp)
    (by
      intro p hp
      rcases List.mem_cons.mp hp with h1 | h1
      · exact ⟨1, by rw [h1]; rfl⟩
      · rw [List.mem_singleton] at h1
        exact ⟨2, by rw [h1]; rfl⟩)
    (by simp [panelOne, panelTwo])
  ⟨h.1, h.2.1, h.2.2.1 0 (by decide)⟩

/-- C9, counterexample to the claim as stated: with duplicated scene
numbers the failing first panel does not keep the error sentinel — the
second panel's success overwrites it, because updates are keyed by
scene_number. -/
theorem panel_failure_sentinel_counterexample :
    ((handleComicGeneration ("st".toList) ("sy".toList) ("er".toList)
        (.ok [panelOne, panelOne]) failThenOk).1.panels.map (fun q => q.imageUrl)) =
      [some ("data:ok".toList), some ("data:ok".toList)] ∧
    failThenOk 0 = .error ("boom".toList) ∧
    ¬ (some ("data:ok".toList) = some (errSentinel)) :=
  ⟨rfl, rfl, by decide⟩

/-- A text without backquotes contains no json fence. -/
theorem fenceCapture?_eq_none : ∀ {l : List Char}, bq ∉ l → fenceCapture? l = none := by
  intro l
  induction l with
  | nil => intro h; rfl
  | cons a t ih =>
    intro h
    have ha : (bq == a) = false := by
      refine beq_eq_false_iff_ne.mpr ?_
      intro e
      exact h (by rw [e]; exact List.mem_cons_self a t)
    have ht : bq ∉ t := fun e => h (List.mem_cons_of_mem a e)
    have hpre : List.isPrefixOf fenceOpenPat (a :: t) = false := by
      simp [fenceOpenPat, List.isPrefixOf, ha]
    simp [fenceCapture?, hpre, ih ht]

/-- Skipping a backquote-free prefix does not change the fence search. -/
theorem fenceCapture?_append : ∀ {p : List Char}, bq ∉ p → ∀ (rest : List Char),
    fenceCapture? (p ++ rest) = fenceCapture? rest := by
  intro p
  induction p with
  | nil => intro _ rest; rfl
  | cons a t ih =>
    intro h rest
    have ha : (bq == a) = false := by
      refine beq_eq_false_iff_ne.mpr ?_
      intro e
      exact h (by rw [e]; exact List.mem_cons_self a t)
    have ht : bq ∉ t := fun e => h (List.mem_cons_of_mem a e)
    have hpre : ¬ (List.isPrefixOf fenceOpenPat (a :: (t ++ rest)) = true) := by
      simp [fenceOpenPat, List.isPrefixOf, ha]
    simp only [List.cons_append, fenceCapture?, List.append_eq]
    rw [if_neg hpre]
    exact ih ht rest

/-- Skipping a backquote-free prefix shifts the closing-fence search. -/
theorem findSub?_close_append : ∀ {p : List Char}, bq ∉ p → ∀ (rest : List Char),
    findSub? fenceClosePat (p ++ rest) =
      (findSub? fenceClosePat rest).map (· + p.length) := by
  intro p
  induction p with
  | nil =>
    intro _ rest
    simp only [List.nil_append, List.length_nil]
    cases findSub? fenceClosePat rest <;> simp
  | cons a t ih =>
    intro h rest
    have ha : (bq == a) = false := by
      refine beq_eq_false_iff_ne.mpr ?_
      intro e
      exact h (by rw [e]; exact List.mem_cons_self a t)
    have ht : bq ∉ t := fun e => h (List.mem_cons_of_mem a e)
    have hpre : ¬ (List.isPrefixOf fenceClosePat (a :: (t ++ rest)) = true) := by
      simp [fenceClosePat, List.isPrefixOf, ha]
    simp only [List.cons_append, findSub?, List.append_eq]
    rw [if_neg hpre, ih ht rest]
    cases findSub? fenceClosePat rest with
    | none => rfl
    | some k => simp; omega

/-- indexOf over a prefix not containing the character. -/
theorem firstIdx?_append : ∀ {c : Char} {l1 : List Char}, c ∉ l1 → ∀ (l2 : List Char),
    firstIdx? c (l1 ++ l2) = (firstIdx? c l2).map (· + l1.length) := by
  intro c l1
  induction l1 with
  | nil =>
    intro _ l2
    simp only [List.nil_append, List.length_nil]
    cases firstIdx? c l2 <;> simp
  | cons a t ih =>
    intro h l2
    have ha : a ≠ c := by
      intro e
      exact h (by rw [← e]; exact List.mem_cons_self a t)
    have ht : c ∉ t := fun e => h (List.mem_cons_of_mem a e)
    simp only [List.cons_append, firstIdx?, List.append_eq, if_neg ha]
    rw [ih ht l2]
    cases firstIdx? c l2 with
    | none => rfl
    | some k => simp; omega

/-- lastIndexOf of an absent character. -/
theorem lastIdx?_eq_none : ∀ {c : Char} {l : List Char}, c ∉ l → lastIdx? c l = none := by
  intro c l
  induction l with
  | nil => intro _; rfl
  | cons a t ih =>
    intro h
    have ha : a ≠ c := by
      intro e
      exact h (by rw [← e]; exact List.mem_cons_self a t)
    have ht : c ∉ t := fun e => h (List.mem_cons_of_mem a e)
    simp [lastIdx?, ih ht, ha]

/-- lastIndexOf ignores a suffix not containing the character. -/
theorem lastIdx?_append_right_none {c : Char} {l2 : List Char} (h : c ∉ l2) :
    ∀ (l1 : List Char), lastIdx? c (l1 ++ l2) = lastIdx? c l1 := by
  intro l1
  induction l1 with
  | nil => simp [lastIdx?_eq_none h, lastIdx?]
  | cons a t ih =>
    simp only [List.cons_append, lastIdx?, List.append_eq]
    rw [ih]

/-- lastIndexOf found in the suffix is shifted by the prefix length. -/
theorem lastIdx?_append_right_some {c : Char} {l2 : List Char} {j : Nat}
    (h : lastIdx? c l2 = some j) :
    ∀ (l1 : List Char), lastIdx? c (l1 ++ l2) = some (l1.length + j) := by
  intro l1
  induction l1 with
  | nil => simpa using h
  | cons a t ih =>
    simp only [List.cons_append, lastIdx?, List.append_eq]
    rw [ih]
    simp
    omega

/-- lastIndexOf of the final element. -/
theorem lastIdx?_concat_self (c : Char) : ∀ (l : List Char),
    lastIdx? c (l ++ [c]) = some l.length := by
  intro l
  induction l with
  | nil => simp [lastIdx?]
  | cons a t ih =>
    simp only [List.cons_append, lastIdx?, List.append_eq]
    rw [ih]
    rfl

/-- A found last index is inside the string. -/
theorem lastIdx?_lt_length {c : Char} : ∀ {l : List Char} {j : Nat},
    lastIdx? c l = some j → j < l.length := by
  intro l
  induction l with
  | nil => intro j h; cases h
  | cons a t ih =>
    intro j h
    simp only [lastIdx?] at h
    cases he : lastIdx? c t with
    | some j2 =>
      rw [he] at h
      have hj : j2 + 1 = j := Option.some.inj h
      have := ih he
      simp
      omega
    | none =>
      rw [he] at h
      split_ifs at h with hac
      have : j = 0 := (Option.some.inj h).symm
      simp [this]

/-- Bracket-fallback case of extraction: when the prose around a
bracket-delimited candidate contains no brackets and no backquotes, the
widest span is exactly the candidate. -/
theorem extractJson_bracket_case (pre mid suf : List Char)
    (hpre : ∀ c ∈ pre, c ≠ '{' ∧ c ≠ '}' ∧ c ≠ '[' ∧ c ≠ ']' ∧ c ≠ bq)
    (hsuf : ∀ c ∈ suf, c ≠ '{' ∧ c ≠ '}' ∧ c ≠ '[' ∧ c ≠ ']' ∧ c ≠ bq)
    (hmid : bq ∉ mid) :
    extractJson (pre ++ ('[' :: mid ++ [']']) ++ suf) =
      some ('[' :: mid ++ [']']) := by
  have hne : (pre ++ ('[' :: mid ++ [']']) ++ suf) ≠ [] := by simp
  have htick : bq ∉ pre ++ ('[' :: mid ++ [']']) ++ suf := by
    intro hm
    rcases List.mem_append.mp hm with hm | hm
    · rcases List.mem_append.mp hm with hm | hm
      · exact (hpre bq hm).2.2.2.2 rfl
      · rcases List.mem_cons.mp hm with hm | hm
        · exact absurd hm (by decide)
        · rcases List.mem_append.mp hm with hm | hm
          · exact hmid hm
          · rw [List.mem_singleton] at hm
            exact absurd hm (by decide)
    · exact (hsuf bq hm).2.2.2.2 rfl
  have hfence : fenceCapture? (pre ++ ('[' :: mid ++ [']']) ++ suf) = none :=
    fenceCapture?_eq_none htick
  have h1 : '[' ∉ pre := fun hm => ((hpre _ hm).2.2.1) rfl
  have h2 : '{' ∉ pre := fun hm => ((hpre _ hm).1) rfl
  have h3 : ']' ∉ suf := fun hm => ((hsuf _ hm).2.2.2.1) rfl
  have h4 : '}' ∉ suf := fun hm => ((hsuf _ hm).2.1) rfl
  have hsq : firstIdx? '[' (pre ++ ('[' :: mid ++ [']']) ++ suf) =
      some (0 + pre.length) := by
    rw [List.append_assoc, firstIdx?_append h1]
    simp [firstIdx?]
  have hcu : firstIdx? '{' (pre ++ ('[' :: mid ++ [']']) ++ suf) =
      (firstIdx? '{' (('[' :: mid ++ [']']) ++ suf)).map (· + pre.length) := by
    rw [List.append_assoc, firstIdx?_append h2]
  have hsplit : pre ++ ('[' :: mid ++ [']']) = (pre ++ ('[' :: mid)) ++ [']'] := by
    simp
  have hrsq : lastIdx? ']' (pre ++ ('[' :: mid ++ [']']) ++ suf) =
      some (pre.length + (mid.length + 1)) := by
    rw [lastIdx?_append_right_none h3, hsplit, lastIdx?_concat_self]
    simp
  have hrcu : lastIdx? '}' (pre ++ ('[' :: mid ++ [']']) ++ suf) =
      lastIdx? '}' (pre ++ ('[' :: mid ++ [']'])) :=
    lastIdx?_append_right_none h4 _
  have hslice : ((pre ++ ('[' :: mid ++ [']']) ++ suf).drop pre.length).take
      (pre.length + (mid.length + 1) + 1 - pre.length) = '[' :: mid ++ [']'] := by
    rw [List.append_assoc, List.drop_left' rfl,
      List.take_left' (by simp; omega)]
  simp only [extractJson, if_neg hne, hfence]
  rw [hcu]
  cases hcv : firstIdx? '{' (('[' :: mid ++ [']']) ++ suf) with
  | none =>
    rw [hsq, hrcu]
    cases hbr : lastIdx? '}' (pre ++ ('[' :: mid ++ [']'])) with
    | none =>
      rw [hrsq]
      simp only [Option.map_none']
      show (if pre.length + (mid.length + 1) < 0 + pre.length then none
        else some (((pre ++ ('[' :: mid ++ [']']) ++ suf).drop (0 + pre.length)).take
          (pre.length + (mid.length + 1) + 1 - (0 + pre.length)))) =
        some ('[' :: mid ++ [']'])
      rw [if_neg (by omega), Nat.zero_add]
      exact congrArg some hslice
    | some jb =>
      have hlt : jb < pre.length + (mid.length + 2) := by
        have := lastIdx?_lt_length hbr
        simpa using this
      rw [hrsq]
      simp only [Option.map_none']
      show (if max jb (pre.length + (mid.length + 1)) < 0 + pre.length then none
        else some (((pre ++ ('[' :: mid ++ [']']) ++ suf).drop (0 + pre.length)).take
          (max jb (pre.length + (mid.length + 1)) + 1 - (0 + pre.length)))) =
        some ('[' :: mid ++ [']'])
      rw [show max jb (pre.length + (mid.length + 1)) = pre.length + (mid.length + 1)
        from by omega]
      rw [if_neg (by omega), Nat.zero_add]
      exact congrArg some hslice
  | some jc =>
    rw [hsq, hrcu]
    simp only [Option.map_some']
    cases hbr : lastIdx? '}' (pre ++ ('[' :: mid ++ [']'])) with
    | none =>
      rw [hrsq]
      show (if pre.length + (mid.length + 1) < min (jc + pre.length) (0 + pre.length)
          then none
        else some (((pre ++ ('[' :: mid ++ [']']) ++ suf).drop
          (min (jc + pre.length) (0 + pre.length))).take
          (pre.length + (mid.length + 1) + 1 - min (jc + pre.length) (0 + pre.length)))) =
        some ('[' :: mid ++ [']'])
      rw [show min (jc + pre.length) (0 + pre.length) = pre.length from by omega]
      rw [if_neg (by omega)]
      exact congrArg some hslice
    | some jb =>
      have hlt : jb < pre.length + (mid.length + 2) := by
        have := lastIdx?_lt_length hbr
        simpa using this
      rw [hrsq]
      show (if max jb (pre.length + (mid.length + 1)) < min (jc + pre.length) (0 + pre.length)
          then none
        else some (((pre ++ ('[' :: mid ++ [']']) ++ suf).drop
          (min (jc + pre.length) (0 + pre.length))).take
          (max jb (pre.length + (mid.length + 1)) + 1 -
            min (jc + pre.length) (0 + pre.length)))) =
        some ('[' :: mid ++ [']'])
      rw [show max jb (pre.length + (mid.length + 1)) = pre.length + (mid.length + 1)
        from by omega]
      rw [show min (jc + pre.length) (0 + pre.length) = pre.length from by omega]
      rw [if_neg (by omega)]
      exact congrArg some hslice

/-- Fenced case of extraction: a json fence inside backquote-free text
yields exactly the trimmed fenced content. -/
theorem extractJson_fence_case (pre inner suf : List Char)
    (hp : bq ∉ pre) (hi : bq ∉ inner) (hs : bq ∉ suf)
    (hne : trimList inner ≠ []) :
    extractJson (pre ++ fenceOpenPat ++ inner ++ fenceClosePat ++ suf) =
      some (trimList inner) := by
  have hassoc : pre ++ fenceOpenPat ++ inner ++ fenceClosePat ++ suf =
      pre ++ (fenceOpenPat ++ (inner ++ (fenceClosePat ++ suf))) := by
    simp [List.append_assoc]
  rw [hassoc]
  have hnil : pre ++ (fenceOpenPat ++ (inner ++ (fenceClosePat ++ suf))) ≠ [] := by
    simp [fenceOpenPat]
  have hfsub0 : findSub? fenceClosePat (fenceClosePat ++ suf) = some 0 := by
    have hpre3 : List.isPrefixOf fenceClosePat (bq :: bq :: bq :: suf) = true := by
      simp [fenceClosePat, List.isPrefixOf]
    show findSub? fenceClosePat (bq :: bq :: bq :: suf) = some 0
    simp only [findSub?, if_pos hpre3]
  have hsub : findSub? fenceClosePat (inner ++ (fenceClosePat ++ suf)) =
      some (0 + inner.length) := by
    rw [findSub?_close_append hi, hfsub0]
    rfl
  have htake : (inner ++ (fenceClosePat ++ suf)).take (0 + inner.length) = inner :=
    List.take_left' (by omega)
  have hfc : fenceCapture? (pre ++ (fenceOpenPat ++ (inner ++ (fenceClosePat ++ suf)))) =
      some (trimList inner) := by
    rw [fenceCapture?_append hp]
    have hpre7 : List.isPrefixOf fenceOpenPat
        (bq :: bq :: bq :: 'j' :: 's' :: 'o' :: 'n' ::
          (inner ++ (fenceClosePat ++ suf))) = true := by
      simp [fenceOpenPat, List.isPrefixOf]
    show fenceCapture?
        (bq :: bq :: bq :: 'j' :: 's' :: 'o' :: 'n' ::
          (inner ++ (fenceClosePat ++ suf))) = some (trimList inner)
    simp only [fenceCapture?, if_pos hpre7, List.drop_succ_cons, List.drop_zero,
      hsub, htake]
  simp only [extractJson, if_neg hnil, hfc, if_neg hne]

/-- C1 (amended): extraction returns null on empty input; it recovers a
bracket-delimited candidate exactly when the surrounding prose contains
no curly or square brackets and no backquotes (a stray bracket in the
prose widens the span, see the counterexample); and it returns exactly
the trimmed content of a json fence embedded in backquote-free text. -/
theorem extractJson_recovery :
    (extractJson [] = none) ∧
    (∀ pre mid suf : List Char,
      (∀ c ∈ pre, c ≠ '{' ∧ c ≠ '}' ∧ c ≠ '[' ∧ c ≠ ']' ∧ c ≠ bq) →
      (∀ c ∈ suf, c ≠ '{' ∧ c ≠ '}' ∧ c ≠ '[' ∧ c ≠ ']' ∧ c ≠ bq) →
      bq ∉ mid →
      extractJson (pre ++ ('[' :: mid ++ [']']) ++ suf) =
        some ('[' :: mid ++ [']'])) ∧
    (∀ pre inner suf : List Char,
      bq ∉ pre → bq ∉ inner → bq ∉ suf → trimList inner ≠ [] →
      extractJson (pre ++ fenceOpenPat ++ inner ++ fenceClosePat ++ suf) =
        some (trimList inner)) :=
  ⟨rfl, extractJson_bracket_case, extractJson_fence_case⟩

/-- Witness for C1 on a concrete prose-wrapped array and a concrete
fenced reply. -/
theorem extractJson_recovery_witness :
    extractJson ("note ".toList ++ ('[' :: "1, 2".toList ++ [']']) ++ " done.".toList) =
      some ('[' :: "1, 2".toList ++ [']']) ∧
    extractJson ("pre ".toList ++ fenceOpenPat ++ " [1] ".toList ++ fenceClosePat ++
        " post".toList) =
      some (trimList (" [1] ".toList)) :=
  ⟨extractJson_recovery.2.1 ("note ".toList) ("1, 2".toList) (" done.".toList)
      (by decide) (by decide) (by decide),
    extractJson_recovery.2.2 ("pre ".toList) (" [1] ".toList) (" post".toList)
      (by decide) (by decide) (by decide) (by decide)⟩

/-- C1, counterexample to the claim as stated: prose containing a stray
closing bracket after the array makes extraction return the widened
span, not exactly the embedded array. -/
theorem extractJson_widest_span_counterexample :
    extractJson ("x [1,2] y]".toList) = some ("[1,2] y]".toList) ∧
    ¬ ("[1,2] y]".toList = "[1,2]".toList) :=
  ⟨rfl, by decide⟩

end Comics
